import Mathlib

/-!
Verification development for the Chronos service core
(`SAUC-MASTER-FINAL/chronos/service.py`): hash-chain ledger, temporal
coordinator, proof engine and chain verifier, shallowly embedded in Lean.

Conventions of the embedding:
* Python `hashlib.sha256(...).hexdigest()` is embedded as a full SHA-256
  implementation over byte lists (`List Nat`, each element < 256), with
  strings encoded to UTF-8 bytes as Python's `str.encode()` does.
* Wall-clock values (`time.time()`, `datetime.now().isoformat()`) are
  passed in as explicit string/number parameters.
* JSON serialisation of a payload dict (`json.dumps(data)` and
  `json.dumps(data, sort_keys=True)`) is modelled by passing the two
  serialised strings as parameters.
* Methods that mutate `self` are state-passing functions returning the
  updated state alongside their Python return value.
-/

namespace Chronos

/-! ## SHA-256 over byte lists -/

/-- 2^32, the word modulus of SHA-256. -/
def M32 : Nat := 4294967296

/-- Rotate a 32-bit word (given as a `Nat` below `M32`) right by `n`. -/
def rotr (n x : Nat) : Nat := ((x >>> n) ||| (x <<< (32 - n))) % M32

/-- The 64 SHA-256 round constants (FIPS 180-4, written in decimal). -/
def sha256K : List Nat :=
  [1116352408, 1899447441, 3049323471, 3921009573, 961987163,
   1508970993, 2453635748, 2870763221, 3624381080, 310598401,
   607225278, 1426881987, 1925078388, 2162078206, 2614888103,
   3248222580, 3835390401, 4022224774, 264347078, 604807628,
   770255983, 1249150122, 1555081692, 1996064986, 2554220882,
   2821834349, 2952996808, 3210313671, 3336571891, 3584528711,
   113926993, 338241895, 666307205, 773529912, 1294757372,
   1396182291, 1695183700, 1986661051, 2177026350, 2456956037,
   2730485921, 2820302411, 3259730800, 3345764771, 3516065817,
   3600352804, 4094571909, 275423344, 430227734, 506948616,
   659060556, 883997877, 958139571, 1322822218, 1537002063,
   1747873779, 1955562222, 2024104815, 2227730452, 2361852424,
   2428436474, 2756734187, 3204031479, 3329325298]

/-- The initial SHA-256 hash state (FIPS 180-4, written in decimal). -/
def sha256H0 : List Nat :=
  [1779033703, 3144134277, 1013904242, 2773480762,
   1359893119, 2600822924, 528734635, 1541459225]

/-- Big-endian 8-byte encoding of a natural number (the length field). -/
def toBE64 (n : Nat) : List Nat :=
  [(n >>> 56) % 256, (n >>> 48) % 256, (n >>> 40) % 256, (n >>> 32) % 256,
   (n >>> 24) % 256, (n >>> 16) % 256, (n >>> 8) % 256, n % 256]

/-- SHA-256 padding: append 0x80, zeros to 56 mod 64, then the bit length. -/
def padMessage (msg : List Nat) : List Nat :=
  let len := msg.length
  let zeros := (119 - (len % 64)) % 64
  msg ++ [128] ++ List.replicate zeros 0 ++ toBE64 (len * 8)

/-- Group bytes into big-endian 32-bit words. -/
def bytesToWords : List Nat → List Nat
  | a :: b :: c :: d :: rest => (((a * 256 + b) * 256 + c) * 256 + d) :: bytesToWords rest
  | _ => []

/-- Split a byte list into 64-byte blocks; structurally recursive on a
fuel argument so that the kernel can evaluate it. Each step consumes at
least one byte, so `fuel = l.length` suffices (`toBlocks_flatten` below
proves the split loses nothing). -/
def toBlocksAux : Nat → List Nat → List (List Nat)
  | 0, _ => []
  | _ + 1, [] => []
  | fuel + 1, a :: rest => (a :: rest).take 64 :: toBlocksAux fuel ((a :: rest).drop 64)

/-- Split a byte list into 64-byte blocks. -/
def toBlocks (l : List Nat) : List (List Nat) := toBlocksAux l.length l

/-- Small sigma-0 of the SHA-256 message schedule. -/
def ssig0 (x : Nat) : Nat := (rotr 7 x) ^^^ (rotr 18 x) ^^^ (x >>> 3)

/-- Small sigma-1 of the SHA-256 message schedule. -/
def ssig1 (x : Nat) : Nat := (rotr 17 x) ^^^ (rotr 19 x) ^^^ (x >>> 10)

/-- Extend the 16-word message schedule by `fuel` further words
(48 for SHA-256). -/
def extendSchedule (w : List Nat) : Nat → List Nat
  | 0 => w
  | fuel + 1 =>
    let n := w.length
    let next := (w.getD (n - 16) 0 + ssig0 (w.getD (n - 15) 0) +
                 w.getD (n - 7) 0 + ssig1 (w.getD (n - 2) 0)) % M32
    extendSchedule (w ++ [next]) fuel

/-- The 64-word message schedule of one 64-byte block. -/
def msgSchedule (block : List Nat) : List Nat :=
  extendSchedule (bytesToWords block) 48

/-- One SHA-256 compression round: state `[a,b,c,d,e,f,g,h]`, inputs `(k, w)`. -/
def sha256Round (st : List Nat) (kw : Nat × Nat) : List Nat :=
  let a := st.getD 0 0
  let b := st.getD 1 0
  let c := st.getD 2 0
  let d := st.getD 3 0
  let e := st.getD 4 0
  let f := st.getD 5 0
  let g := st.getD 6 0
  let h := st.getD 7 0
  let S1 := (rotr 6 e) ^^^ (rotr 11 e) ^^^ (rotr 25 e)
  let ch := (e &&& f) ^^^ ((e ^^^ (M32 - 1)) &&& g)
  let temp1 := (h + S1 + ch + kw.1 + kw.2) % M32
  let S0 := (rotr 2 a) ^^^ (rotr 13 a) ^^^ (rotr 22 a)
  let maj := (a &&& b) ^^^ (a &&& c) ^^^ (b &&& c)
  let temp2 := (S0 + maj) % M32
  [(temp1 + temp2) % M32, a, b, c, (d + temp1) % M32, e, f, g]

/-- Compress one 64-byte block into the running hash state. -/
def sha256Block (hs : List Nat) (block : List Nat) : List Nat :=
  let final := (sha256K.zip (msgSchedule block)).foldl sha256Round hs
  List.zipWith (fun x y => (x + y) % M32) hs final

/-- SHA-256 of a byte list, as the eight 32-bit words of the digest. -/
def sha256Words (msg : List Nat) : List Nat :=
  (toBlocks (padMessage msg)).foldl sha256Block sha256H0

/-- A lowercase hexadecimal digit. -/
def hexDigit (n : Nat) : Char :=
  if n < 10 then Char.ofNat (48 + n) else Char.ofNat (87 + n)

/-- Lowercase 8-hex-digit rendering of a 32-bit word. -/
def wordHex (w : Nat) : List Char :=
  [hexDigit ((w >>> 28) % 16), hexDigit ((w >>> 24) % 16),
   hexDigit ((w >>> 20) % 16), hexDigit ((w >>> 16) % 16),
   hexDigit ((w >>> 12) % 16), hexDigit ((w >>> 8) % 16),
   hexDigit ((w >>> 4) % 16), hexDigit (w % 16)]

/-- `hashlib.sha256(bytes).hexdigest()`: the 64-character lowercase hex digest. -/
def sha256hex (msg : List Nat) : String :=
  String.mk ((sha256Words msg).flatMap wordHex)

/-- UTF-8 encoding of one character, as Python's `str.encode()` produces it. -/
def utf8Char (c : Char) : List Nat :=
  let n := c.toNat
  if n < 128 then [n]
  else if n < 2048 then [192 + n / 64, 128 + n % 64]
  else if n < 65536 then [224 + n / 4096, 128 + (n / 64) % 64, 128 + n % 64]
  else [240 + n / 262144, 128 + (n / 4096) % 64, 128 + (n / 64) % 64, 128 + n % 64]

/-- UTF-8 bytes of a string (`data.encode()` in Python). -/
def strBytes (s : String) : List Nat := s.data.flatMap utf8Char

/-- `BlockchainOrchestrator.calculate_hash`:
`hashlib.sha256(data.encode()).hexdigest()`. -/
def calculate_hash (data : String) : String := sha256hex (strBytes data)

/-! ## BlockchainOrchestrator: the hash-chain ledger -/

/-- The `BlockchainTransaction` dataclass. -/
structure BlockchainTransaction where
  tx_id : String
  timestamp : String
  operation : String
  data_hash : String
  previous_hash : String
  merkle_root : String
  status : String
  deriving DecidableEq, Repr

/-- `BlockchainOrchestrator.genesis_hash`: the 64-zero-character sentinel. -/
def genesis_hash : String :=
  "0000000000000000000000000000000000000000000000000000000000000000"

/-- One level of the merkle reduction: the body of the
`for i in range(0, len(hashes), 2)` loop in `calculate_merkle_root`.
Adjacent pairs are concatenated and hashed; a trailing odd element is
concatenated with itself. -/
def merklePairs : List String → List String
  | a :: b :: rest => calculate_hash (a ++ b) :: merklePairs rest
  | [a] => [calculate_hash (a ++ a)]
  | [] => []

/-- The `while len(hashes) > 1` loop of `calculate_merkle_root`,
structurally recursive on a fuel argument so that the kernel can
evaluate it. Each pass at least halves a list of two or more hashes, so
`fuel = hashes.length` suffices (`merkleLoop_exit` below proves the
loop's exit condition holds at the result). -/
def merkleLoopAux : Nat → List String → List String
  | 0, hashes => hashes
  | fuel + 1, hashes =>
    if hashes.length > 1 then merkleLoopAux fuel (merklePairs hashes) else hashes

/-- The `while len(hashes) > 1` loop of `calculate_merkle_root`. -/
def merkleLoop (hashes : List String) : List String :=
  merkleLoopAux hashes.length hashes

/-- `BlockchainOrchestrator.calculate_merkle_root`. -/
def calculate_merkle_root (transactions : List String) : String :=
  if transactions.isEmpty then genesis_hash
  else
    let hashes := (transactions.map calculate_hash)
    (merkleLoop hashes).headD genesis_hash

/-- The expression `self.chain[-1].data_hash if self.chain else
self.genesis_hash`, shared by `create_transaction` and
`_validate_transaction`. -/
def tailDataHash (chain : List BlockchainTransaction) : String :=
  match chain.getLast? with
  | some tx => tx.data_hash
  | none => genesis_hash

/-- `BlockchainOrchestrator.create_transaction`. The chain is passed in
(the method only reads it); `timeStr` stands for `time.time()` rendered
into the id seed, `timestampStr` for `datetime.now().isoformat()`;
`dataJson` and `dataJsonSorted` are `json.dumps(data)` and
`json.dumps(data, sort_keys=True)`. -/
def create_transaction (chain : List BlockchainTransaction) (operation : String)
    (dataJson dataJsonSorted : String) (timeStr timestampStr : String) :
    BlockchainTransaction :=
  { tx_id := calculate_hash (operation ++ "_" ++ timeStr ++ "_" ++ dataJson)
    timestamp := timestampStr
    operation := operation
    data_hash := calculate_hash dataJsonSorted
    previous_hash := tailDataHash chain
    merkle_root := calculate_merkle_root [dataJson]
    status := "pending" }

/-- `BlockchainOrchestrator._validate_transaction`: non-empty id and
timestamp, and `previous_hash` matching the expected tail hash. -/
def validate_transaction (chain : List BlockchainTransaction)
    (tx : BlockchainTransaction) : Bool :=
  if tx.tx_id == "" || tx.timestamp == "" then false
  else tx.previous_hash == tailDataHash chain

/-- `BlockchainOrchestrator.add_transaction`. Returns the Python boolean,
the updated chain, and the (in-place mutated) transaction whose status
became `confirmed` or `rejected`. The `try` of the source cannot fail in
this fragment (validation and list append raise nothing), so no
exceptional branch exists in the embedding. -/
def add_transaction (chain : List BlockchainTransaction)
    (tx : BlockchainTransaction) :
    Bool × List BlockchainTransaction × BlockchainTransaction :=
  if validate_transaction chain tx then
    let confirmed := { tx with status := "confirmed" }
    (true, chain ++ [confirmed], confirmed)
  else
    (false, chain, { tx with status := "rejected" })

/-- Run a sequence of `add_transaction` calls (with arbitrary candidate
transactions, covering in particular those built by `create_transaction`)
against the chain. -/
def applyAdds (chain : List BlockchainTransaction) :
    List BlockchainTransaction → List BlockchainTransaction
  | [] => chain
  | tx :: txs => applyAdds (add_transaction chain tx).2.1 txs

/-- Spec-side linkage predicate: every transaction's `previous_hash`
equals its predecessor's `data_hash`, the first one's equals `prev`. -/
def linkedFrom (prev : String) : List BlockchainTransaction → Bool
  | [] => true
  | tx :: rest => tx.previous_hash == prev && linkedFrom tx.data_hash rest

/-- Spec-side statement of the hash-chain invariant from the GENESIS
sentinel. -/
def chainLinked (chain : List BlockchainTransaction) : Bool :=
  linkedFrom genesis_hash chain

/-- The mutable state of a `BlockchainOrchestrator` (its `__init__`
fields; `genesis_hash` is the constant above). -/
structure OrchestratorState where
  chain : List BlockchainTransaction
  pending_transactions : List String
  deriving Repr

/-- `create_transaction` as a state-passing method on the orchestrator:
its body only reads `self.chain` (via `create_transaction`) and assigns
no field of `self`, so the state passes through unchanged. -/
def create_transactionS (st : OrchestratorState) (operation : String)
    (dataJson dataJsonSorted : String) (timeStr timestampStr : String) :
    OrchestratorState × BlockchainTransaction :=
  (st, create_transaction st.chain operation dataJson dataJsonSorted timeStr timestampStr)

/-! ## DLTOperations: chain verification -/

/-- The `for i, tx in enumerate(chain)` loop of
`DLTOperations.verify_consolidation_chain`, with the emitted log lines
made explicit. `prev` carries `chain[i-1].data_hash`. -/
def verifyChainLoop (ghash : String) :
    Nat → String → List BlockchainTransaction → Bool × List String
  | _, _, [] => (true, ["Consolidation chain verified successfully"])
  | i, prev, tx :: rest =>
    if i == 0 then
      if tx.previous_hash != ghash then (false, ["Genesis transaction invalid"])
      else verifyChainLoop ghash (i + 1) tx.data_hash rest
    else
      if tx.previous_hash != prev then
        (false, ["Hash chain broken at transaction " ++ toString i])
      else verifyChainLoop ghash (i + 1) tx.data_hash rest

/-- `DLTOperations.verify_consolidation_chain`: the returned boolean plus
the log lines the call emits (the index of a break is reported through
the log). An empty chain returns `True` before the loop, logging
nothing. -/
def verify_consolidation_chain (chain : List BlockchainTransaction) :
    Bool × List String :=
  if chain.isEmpty then (true, [])
  else verifyChainLoop genesis_hash 0 "" chain

/-- Spec-side definition: the index of the first broken link (index 0
breaks when `previous_hash` differs from the genesis sentinel). -/
def firstBreakFrom (prev : String) (i : Nat) :
    List BlockchainTransaction → Option Nat
  | [] => none
  | tx :: rest =>
    if tx.previous_hash != prev then some i
    else firstBreakFrom tx.data_hash (i + 1) rest

/-- Spec-side definition: the index of the first broken link of a chain. -/
def firstBreak (chain : List BlockchainTransaction) : Option Nat :=
  firstBreakFrom genesis_hash 0 chain

/-! ## TemporalCoordinator -/

/-- The `TemporalEvent` dataclass. The `data` payload dict is modelled as
an opaque serialised string. -/
structure TemporalEvent where
  event_id : String
  timestamp : String
  event_type : String
  agent : String
  data : String
  sequence : Nat
  deriving DecidableEq, Repr

/-- The mutable state of a `TemporalCoordinator` (its `__init__` fields).
The lock dict is a total map defaulting to `false`, matching
`self.coordination_locks.get(agent, False)`. -/
structure CoordinatorState where
  events : List TemporalEvent
  sequence_counter : Nat
  coordination_locks : String → Bool

/-- A fresh `TemporalCoordinator()`. -/
def initialCoordinator : CoordinatorState :=
  { events := [], sequence_counter := 0, coordination_locks := fun _ => false }

/-- `TemporalCoordinator.register_event`. `tMillis` stands for
`int(time.time() * 1000)` and `timestampStr` for
`datetime.now().isoformat()`. Returns the event id and the updated
state: the counter is incremented first, and the appended event carries
the incremented counter as its sequence number. -/
def register_event (st : CoordinatorState) (event_type agent data : String)
    (tMillis : Nat) (timestampStr : String) : String × CoordinatorState :=
  let event_id := "event_" ++ toString tMillis ++ "_" ++ toString st.sequence_counter
  let counter := st.sequence_counter + 1
  let event : TemporalEvent :=
    { event_id := event_id
      timestamp := timestampStr
      event_type := event_type
      agent := agent
      data := data
      sequence := counter }
  (event_id, { st with events := st.events ++ [event], sequence_counter := counter })

/-- `any(self.coordination_locks.get(agent, False) for agent in agents)`:
the contention check of `coordinate_operation`. -/
def anyLocked (locks : String → Bool) (agents : List String) : Bool :=
  agents.any (fun a => locks a)

/-- The `for agent in agents: self.coordination_locks[agent] = True` loop. -/
def lockAgents (locks : String → Bool) (agents : List String) : String → Bool :=
  fun a => if agents.contains a then true else locks a

/-- The `for agent in agents: self.coordination_locks[agent] = False` loop. -/
def unlockAgents (locks : String → Bool) (agents : List String) : String → Bool :=
  fun a => if agents.contains a then false else locks a

/-- The serialised payload of the `coordination_start` event. -/
def coordStartData (coordination_id operation : String) (agents : List String) : String :=
  coordination_id ++ "|" ++ operation ++ "|" ++ String.intercalate "," agents

/-- The serialised payload of the `coordination_complete` event. -/
def coordCompleteData (coordination_id : String) : String :=
  coordination_id ++ "|success"

/-- First half of `TemporalCoordinator.coordinate_operation`, up to the
suspension point `await asyncio.sleep(0.1)`: the contention check, the
lock-all loop and the `coordination_start` event. `none` is the
early-rejection exit (no state change). `tSec` stands for
`int(time.time())` in the coordination id. -/
def coordPhase1 (st : CoordinatorState) (operation : String) (agents : List String)
    (tSec tMillis : Nat) (timestampStr : String) : Option CoordinatorState :=
  if anyLocked st.coordination_locks agents then none
  else
    let coordination_id := "coord_" ++ operation ++ "_" ++ toString tSec
    let locked := { st with coordination_locks := lockAgents st.coordination_locks agents }
    some (register_event locked "coordination_start" "chronos"
      (coordStartData coordination_id operation agents) tMillis timestampStr).2

/-- Second half of `coordinate_operation`, after the suspension point:
the unlock-all loop and the `coordination_complete` event. -/
def coordPhase2 (st : CoordinatorState) (operation : String) (agents : List String)
    (tSec tMillis : Nat) (timestampStr : String) : CoordinatorState :=
  let coordination_id := "coord_" ++ operation ++ "_" ++ toString tSec
  let unlocked := { st with coordination_locks := unlockAgents st.coordination_locks agents }
  (register_event unlocked "coordination_complete" "chronos"
    (coordCompleteData coordination_id) tMillis timestampStr).2

/-- `TemporalCoordinator.coordinate_operation` run without interleaving:
phase 1 (reject-or-lock) followed, on success, by phase 2 (unlock and
complete). The embedded fragment raises no exception, so the `except`
branch is unreachable. -/
def coordinate_operation (st : CoordinatorState) (operation : String)
    (agents : List String) (tSec t1 t2 : Nat) (ts1 ts2 : String) :
    Bool × CoordinatorState :=
  match coordPhase1 st operation agents tSec t1 ts1 with
  | none => (false, st)
  | some locked => (true, coordPhase2 locked operation agents tSec t2 ts2)

/-- Run a sequence of `register_event` calls; each tuple is
`(event_type, agent, data, tMillis, timestampStr)`. -/
def applyRegisters (st : CoordinatorState) :
    List (String × String × String × Nat × String) → CoordinatorState
  | [] => st
  | (et, ag, d, t, ts) :: rest => applyRegisters (register_event st et ag d t ts).2 rest

/-- `TemporalCoordinator.get_event_timeline` with `agent=None`:
`sorted(self.events, key=lambda x: x.sequence)` (a stable sort). -/
def get_event_timeline (st : CoordinatorState) : List TemporalEvent :=
  st.events.mergeSort (fun a b => decide (a.sequence ≤ b.sequence))

/-- The `for i, event in enumerate(events)` check of
`ChronosService._verify_temporal_consistency`: event `i` must carry
sequence `i + 1`. -/
def checkSeq : Nat → List TemporalEvent → Bool
  | _, [] => true
  | i, e :: rest => e.sequence == i + 1 && checkSeq (i + 1) rest

/-- `ChronosService._verify_temporal_consistency`. -/
def verify_temporal_consistency (st : CoordinatorState) : Bool :=
  checkSeq 0 (get_event_timeline st)

/-! ## ProofEngine -/

/-- The `ConsolidationProof` dataclass. The `verified` field is the flag
`finalize_proof` sets (the spec calls it `finalized`). -/
structure ConsolidationProof where
  proof_id : String
  operation : String
  files_affected : List String
  before_hash : String
  after_hash : String
  timestamp : String
  verified : Bool
  deriving DecidableEq, Repr

/-- `next((p for p in self.proofs if p.proof_id == proof_id), None)`. -/
def findProof (proofs : List ConsolidationProof) (pid : String) :
    Option ConsolidationProof :=
  proofs.find? (fun p => p.proof_id == pid)

/-- The file-reading loops of the proof engine: a filesystem is a map
from path to byte content (`none` for a missing or unreadable file,
which the source silently skips), and the readable contents are
concatenated as `b''.join(...)` does. -/
def readFilesConcat (fs : String → Option (List Nat)) (files : List String) :
    List Nat :=
  (files.filterMap fs).flatten

/-- `ProofEngine.generate_consolidation_proof`. `timeStr` seeds the proof
id and `timestampStr` is the creation timestamp. -/
def generate_consolidation_proof (fs : String → Option (List Nat))
    (proofs : List ConsolidationProof) (operation : String) (files : List String)
    (timeStr timestampStr : String) : ConsolidationProof × List ConsolidationProof :=
  let proof : ConsolidationProof :=
    { proof_id := sha256hex (strBytes (operation ++ "_" ++ timeStr))
      operation := operation
      files_affected := files
      before_hash := sha256hex (readFilesConcat fs files)
      after_hash := ""
      timestamp := timestampStr
      verified := false }
  (proof, proofs ++ [proof])

/-- The in-place mutation of `finalize_proof`: the first proof whose id
matches gets the new `after_hash` and `verified := true`. -/
def finalizeUpdate (pid after : String) :
    List ConsolidationProof → List ConsolidationProof
  | [] => []
  | p :: rest =>
    if p.proof_id == pid then { p with after_hash := after, verified := true } :: rest
    else p :: finalizeUpdate pid after rest

/-- `ProofEngine.finalize_proof`: looks the proof up; if absent, returns
`False` with the collection untouched; otherwise recomputes the fileset
hash, stores it as `after_hash`, sets `verified` unconditionally and
returns `True`. -/
def finalize_proof (fs : String → Option (List Nat))
    (proofs : List ConsolidationProof) (pid : String) (files : List String) :
    Bool × List ConsolidationProof :=
  match findProof proofs pid with
  | none => (false, proofs)
  | some _ => (true, finalizeUpdate pid (sha256hex (readFilesConcat fs files)) proofs)

/-- `ProofEngine.verify_integrity`. -/
def verify_integrity (proofs : List ConsolidationProof) (pid : String) : Bool :=
  match findProof proofs pid with
  | none => false
  | some p =>
    p.verified && p.before_hash != p.after_hash && decide (0 < p.files_affected.length)

/-- The mid-flight coordinator state of a first `coordinate_operation`
call on agents A and B, suspended at `await asyncio.sleep(0.1)` between
lock acquisition and release: phase 1 has run, phase 2 has not. -/
def overlapMidState : CoordinatorState :=
  (coordPhase1 initialCoordinator "op1" ["A", "B"] 0 0 "t0").getD initialCoordinator

/-! ## Adequacy of the fueled loops -/

/-- Each merkle level has half (rounded up) the hashes of the previous
one. -/
theorem merklePairs_length (l : List String) :
    (merklePairs l).length = (l.length + 1) / 2 := by
  induction l using merklePairs.induct <;> simp [merklePairs, *]
  omega

/-- With fuel one short of covering the list, the fueled merkle loop
still reaches the `while` loop's exit condition. -/
theorem merkleLoopAux_exit (fuel : Nat) :
    ∀ hashes : List String, hashes.length ≤ fuel + 1 →
      (merkleLoopAux fuel hashes).length ≤ 1 := by
  induction fuel with
  | zero =>
    intro hashes h
    simpa [merkleLoopAux] using h
  | succ n ih =>
    intro hashes h
    rw [merkleLoopAux]
    split
    · apply ih
      rw [merklePairs_length]
      omega
    · omega

/-- `merkleLoop` runs the `while len(hashes) > 1` loop to completion:
its result satisfies the loop's exit condition. -/
theorem merkleLoop_exit (hashes : List String) : (merkleLoop hashes).length ≤ 1 :=
  merkleLoopAux_exit hashes.length hashes (by omega)

/-- With enough fuel, the fueled block split consumes the whole message:
flattening the blocks recovers it. -/
theorem toBlocksAux_flatten (fuel : Nat) :
    ∀ l : List Nat, l.length ≤ fuel → (toBlocksAux fuel l).flatten = l := by
  induction fuel with
  | zero =>
    intro l h
    have : l = [] := List.eq_nil_of_length_eq_zero (Nat.le_zero.mp h)
    simp [this, toBlocksAux]
  | succ n ih =>
    intro l h
    cases l with
    | nil => simp [toBlocksAux]
    | cons a rest =>
      have hd : ((a :: rest).drop 64).length ≤ n := by
        simp only [List.length_drop, List.length_cons] at h ⊢
        omega
      rw [toBlocksAux, List.flatten_cons, ih ((a :: rest).drop 64) hd]
      exact List.take_append_drop 64 (a :: rest)

/-- `toBlocks` splits the padded message without losing bytes. -/
theorem toBlocks_flatten (l : List Nat) : (toBlocks l).flatten = l :=
  toBlocksAux_flatten l.length l (Nat.le_refl _)

/-! ## The claims -/

set_option maxRecDepth 400000 in
/-- C3 counterexample: at the concrete payload string `"x"`, the merkle
root stored by `create_transaction` is `hash("x")`, not
`hash(hash("x") ++ hash("x"))`: the `while len(hashes) > 1` loop body
never executes for a one-element list, so no concatenate-then-hash step
(and no duplication) happens. -/
theorem merkle_root_single_counterexample :
    (create_transaction [] "op" "x" "x" "0" "t").merkle_root ≠
      calculate_hash (calculate_hash "x" ++ calculate_hash "x") := by
  decide

/-- C3 (amended): for every payload, the `merkle_root` field of the
transaction returned by `create_transaction`, computed over the
one-element list containing the payload, equals `hash(payload)`: the
pairwise reduction loop exits immediately on a single hash, so no
concatenation or duplication is applied. -/
theorem merkle_root_single_amended (chain : List BlockchainTransaction)
    (operation dataJson dataJsonSorted timeStr timestampStr : String) :
    (create_transaction chain operation dataJson dataJsonSorted timeStr
        timestampStr).merkle_root = calculate_hash dataJson ∧
    calculate_merkle_root [dataJson] = calculate_hash dataJson := by
  constructor <;>
    simp [create_transaction, calculate_merkle_root, merkleLoop, merkleLoopAux]

/-- C10: `create_transaction` never mutates the ledger state: the chain
and the pending-transaction list are identical before and after the
call (the body only reads the chain tail to fill `previous_hash`), and
the returned transaction is a fresh pending one. The chain can
therefore grow only through `add_transaction`. -/
theorem create_transaction_pure (st : OrchestratorState)
    (operation dataJson dataJsonSorted timeStr timestampStr : String) :
    (create_transactionS st operation dataJson dataJsonSorted timeStr
        timestampStr).1.chain = st.chain ∧
    (create_transactionS st operation dataJson dataJsonSorted timeStr
        timestampStr).1.pending_transactions = st.pending_transactions ∧
    (create_transactionS st operation dataJson dataJsonSorted timeStr
        timestampStr).2.status = "pending" :=
  ⟨rfl, rfl, rfl⟩

/-- C5: if any agent in the requested set already holds a lock when
`coordinate_operation` is called, the call returns `False` immediately,
acquires no lock and leaves the whole coordinator state (in particular
every agent's pre-existing lock) unchanged. -/
theorem coordinate_contention_rejects (st : CoordinatorState) (operation : String)
    (agents : List String) (tSec t1 t2 : Nat) (ts1 ts2 : String)
    (h : anyLocked st.coordination_locks agents = true) :
    (coordinate_operation st operation agents tSec t1 t2 ts1 ts2).1 = false ∧
    (coordinate_operation st operation agents tSec t1 t2 ts1 ts2).2 = st := by
  simp [coordinate_operation, coordPhase1, h]

/-- C5 witness: with agent A locked, a coordination request for A and B
is rejected. -/
theorem coordinate_contention_rejects_witness :
    (coordinate_operation
      { events := [], sequence_counter := 0, coordination_locks := fun a => a == "A" }
      "op" ["A", "B"] 0 0 1 "t1" "t2").1 = false :=
  (coordinate_contention_rejects
    { events := [], sequence_counter := 0, coordination_locks := fun a => a == "A" }
    "op" ["A", "B"] 0 0 1 "t1" "t2" (by decide)).1

/-- C8: a transaction whose `previous_hash` does not match the current
tail's `data_hash`, or whose id or timestamp is empty, is marked
`rejected`, the call returns `False` (the embedded fragment raises
nothing), and the chain is unchanged. -/
theorem add_transaction_rejects (chain : List BlockchainTransaction)
    (tx : BlockchainTransaction)
    (h : tx.tx_id = "" ∨ tx.timestamp = "" ∨ tx.previous_hash ≠ tailDataHash chain) :
    add_transaction chain tx = (false, chain, { tx with status := "rejected" }) := by
  have hv : validate_transaction chain tx = false := by
    unfold validate_transaction
    rcases h with h | h | h
    · simp [h]
    · simp [h]
    · split
      · rfl
      · simp [beq_eq_false_iff_ne, h]
  simp [add_transaction, hv]

/-- C8 witness: re-adding the already-confirmed head transaction after
the tail has advanced fails validation (its `previous_hash` is the
stale genesis sentinel), leaving the chain unchanged. -/
theorem add_transaction_rejects_witness :
    add_transaction
      [{ tx_id := "a", timestamp := "t", operation := "op", data_hash := "d1",
         previous_hash := genesis_hash, merkle_root := "m", status := "confirmed" }]
      { tx_id := "a", timestamp := "t", operation := "op", data_hash := "d1",
        previous_hash := genesis_hash, merkle_root := "m", status := "confirmed" } =
      (false,
       [{ tx_id := "a", timestamp := "t", operation := "op", data_hash := "d1",
          previous_hash := genesis_hash, merkle_root := "m", status := "confirmed" }],
       { tx_id := "a", timestamp := "t", operation := "op", data_hash := "d1",
         previous_hash := genesis_hash, merkle_root := "m", status := "rejected" }) :=
  add_transaction_rejects _ _ (Or.inr (Or.inr (by decide)))

/-- The tail hash is the last transaction's data hash, defaulting to the
genesis sentinel. -/
theorem tailDataHash_eq (chain : List BlockchainTransaction) :
    tailDataHash chain =
      (chain.getLast?.map (fun a => a.data_hash)).getD genesis_hash := by
  unfold tailDataHash
  cases chain.getLast? <;> simp

/-- Appending a transaction whose `previous_hash` matches the tail keeps
the chain linked. -/
theorem linkedFrom_snoc (tx : BlockchainTransaction) :
    ∀ (l : List BlockchainTransaction) (prev : String),
      linkedFrom prev l = true →
      tx.previous_hash = (l.getLast?.map (fun a => a.data_hash)).getD prev →
      linkedFrom prev (l ++ [tx]) = true := by
  intro l
  induction l with
  | nil =>
    intro prev h1 h2
    simp at h2
    simp [linkedFrom, h2]
  | cons a rest ih =>
    intro prev h1 h2
    simp [linkedFrom] at h1 ⊢
    refine ⟨h1.1, ih a.data_hash h1.2 ?_⟩
    cases rest with
    | nil => simpa using h2
    | cons b rest2 =>
      rcases hgl : (b :: rest2).getLast? with _ | x
      · simp at hgl
      · rw [List.getLast?_cons_cons, hgl] at h2
        simpa [hgl] using h2

/-- `add_transaction` preserves the hash-chain linkage invariant: it
appends only after validating the new transaction's `previous_hash`
against the tail. -/
theorem chainLinked_add (chain : List BlockchainTransaction)
    (tx : BlockchainTransaction) (h : chainLinked chain = true) :
    chainLinked (add_transaction chain tx).2.1 = true := by
  unfold add_transaction
  by_cases hv : validate_transaction chain tx = true
  · have hprev : tx.previous_hash = tailDataHash chain := by
      unfold validate_transaction at hv
      split at hv
      · exact absurd hv (by simp)
      · exact beq_iff_eq.mp hv
    simp only [hv, if_true]
    unfold chainLinked at h ⊢
    apply linkedFrom_snoc _ _ _ h
    rw [← tailDataHash_eq]
    exact hprev
  · simp only [Bool.not_eq_true] at hv
    simpa [hv] using h

/-- Any sequence of `add_transaction` calls preserves linkage. -/
theorem chainLinked_applyAdds :
    ∀ (txs chain : List BlockchainTransaction),
      chainLinked chain = true → chainLinked (applyAdds chain txs) = true := by
  intro txs
  induction txs with
  | nil => intro chain h; simpa [applyAdds] using h
  | cons tx rest ih =>
    intro chain h
    rw [applyAdds]
    exact ih _ (chainLinked_add chain tx h)

/-- A linked chain, read off by index: the first entry's `previous_hash`
is the sentinel `prev`, later entries chain to their predecessor. -/
theorem linkedFrom_index :
    ∀ (l : List BlockchainTransaction) (prev : String), linkedFrom prev l = true →
      ∀ (i : Nat) (tx : BlockchainTransaction), l[i]? = some tx →
        (i = 0 → tx.previous_hash = prev) ∧
        (∀ (j : Nat) (ptx : BlockchainTransaction), i = j + 1 → l[j]? = some ptx →
          tx.previous_hash = ptx.data_hash) := by
  intro l
  induction l with
  | nil =>
    intro prev _ i tx hget
    simp at hget
  | cons a rest ih =>
    intro prev h i tx hget
    simp [linkedFrom] at h
    cases i with
    | zero =>
      simp at hget
      constructor
      · intro _
        rw [← hget]
        exact h.1
      · intro j ptx hji _
        exact absurd hji (by omega)
    | succ k =>
      simp at hget
      have IH := ih a.data_hash h.2 k tx hget
      constructor
      · intro h0
        exact absurd h0 (by omega)
      · intro j ptx hji hgetj
        have hjk : j = k := by omega
        subst hjk
        cases j with
        | zero =>
          simp at hgetj
          rw [← hgetj]
          exact IH.1 rfl
        | succ m =>
          simp at hgetj
          exact IH.2 m ptx rfl hgetj

/-- C1: for every sequence of `add_transaction` calls starting from the
empty chain (with arbitrary candidate transactions, in particular those
built by `create_transaction`), every stored transaction at index
`i > 0` has `previous_hash` equal to the `data_hash` of the transaction
at index `i - 1`, and the transaction at index 0 has `previous_hash`
equal to the GENESIS sentinel of 64 `'0'` characters. -/
theorem hash_chain_linkage (txs : List BlockchainTransaction) (i : Nat)
    (tx : BlockchainTransaction) (h : (applyAdds [] txs)[i]? = some tx) :
    (i = 0 → tx.previous_hash = genesis_hash) ∧
    (∀ (j : Nat) (ptx : BlockchainTransaction), i = j + 1 →
      (applyAdds [] txs)[j]? = some ptx → tx.previous_hash = ptx.data_hash) := by
  have hc : chainLinked (applyAdds [] txs) = true := chainLinked_applyAdds txs [] rfl
  exact linkedFrom_index _ _ hc i tx h

/-- C1 witness: adding one well-formed transaction to the empty chain
stores it at index 0 with the genesis sentinel as `previous_hash`. -/
theorem hash_chain_linkage_witness :
    ({ tx_id := "a", timestamp := "t", operation := "op", data_hash := "d1",
       previous_hash := genesis_hash, merkle_root := "m", status := "confirmed" } :
      BlockchainTransaction).previous_hash = genesis_hash :=
  (hash_chain_linkage
    [{ tx_id := "a", timestamp := "t", operation := "op", data_hash := "d1",
       previous_hash := genesis_hash, merkle_root := "m", status := "pending" }]
    0 _ (by decide)).1 rfl

/-- C9: for a proof id matching no stored proof, `finalize_proof`
returns `False` and leaves the proof collection unchanged, and
`verify_integrity` returns `False`. -/
theorem finalize_missing_proof (fs : String → Option (List Nat))
    (proofs : List ConsolidationProof) (pid : String) (files : List String)
    (h : findProof proofs pid = none) :
    (finalize_proof fs proofs pid files).1 = false ∧
    (finalize_proof fs proofs pid files).2 = proofs ∧
    verify_integrity proofs pid = false := by
  simp [finalize_proof, verify_integrity, h]

/-- C9 witness: finalizing an unknown proof id against a one-proof
collection fails. -/
theorem finalize_missing_proof_witness :
    (finalize_proof (fun _ => none)
      [{ proof_id := "p1", operation := "op", files_affected := ["f"],
         before_hash := "b", after_hash := "", timestamp := "t", verified := false }]
      "zz" ["f"]).1 = false :=
  (finalize_missing_proof (fun _ => none)
    [{ proof_id := "p1", operation := "op", files_affected := ["f"],
       before_hash := "b", after_hash := "", timestamp := "t", verified := false }]
    "zz" ["f"] (by decide)).1

/-- `finalize_proof`'s in-place update is visible through the same
lookup: the first matching proof now carries the recomputed hash and
the flag. -/
theorem findProof_finalizeUpdate (pid after : String) :
    ∀ (proofs : List ConsolidationProof) (p : ConsolidationProof),
      findProof proofs pid = some p →
      findProof (finalizeUpdate pid after proofs) pid =
        some { p with after_hash := after, verified := true } := by
  intro proofs
  induction proofs with
  | nil =>
    intro p hp
    simp [findProof] at hp
  | cons q rest ih =>
    intro p hp
    by_cases hq : (q.proof_id == pid) = true
    · simp only [findProof, List.find?, hq] at hp
      injection hp with hp
      subst hp
      simp only [finalizeUpdate, if_pos hq]
      simp only [findProof, List.find?]
      simp [hq]
    · have hq' : (q.proof_id == pid) = false := by simpa using hq
      simp only [findProof, List.find?, hq'] at hp
      simp only [finalizeUpdate, if_neg hq]
      simp only [findProof, List.find?, hq']
      exact ih p hp

/-- C6: `verify_integrity` returns true iff the stored proof with that
id has its `verified` flag set (the spec's "finalized"), differing
before/after hashes, and a non-empty fileset; a successful
`finalize_proof` marks the proof unconditionally, and a marked proof
whose `before_hash` equals its `after_hash` still yields
`verify_integrity` false. -/
theorem verify_integrity_characterization (proofs : List ConsolidationProof)
    (pid : String) :
    (verify_integrity proofs pid = true ↔
      ∃ p, findProof proofs pid = some p ∧ p.verified = true ∧
        p.before_hash ≠ p.after_hash ∧ p.files_affected ≠ []) ∧
    (∀ (fs : String → Option (List Nat)) (files : List String)
        (p : ConsolidationProof), findProof proofs pid = some p →
      (finalize_proof fs proofs pid files).1 = true ∧
      findProof (finalize_proof fs proofs pid files).2 pid =
        some { p with after_hash := sha256hex (readFilesConcat fs files),
                      verified := true }) ∧
    (∀ p : ConsolidationProof, findProof proofs pid = some p →
      p.before_hash = p.after_hash → verify_integrity proofs pid = false) := by
  refine ⟨?_, ?_, ?_⟩
  · cases hf : findProof proofs pid with
    | none => simp [verify_integrity, hf]
    | some p =>
      simp [verify_integrity, hf, List.length_pos, and_assoc]
  · intro fs files p hp
    constructor
    · simp [finalize_proof, hp]
    · simp only [finalize_proof, hp]
      exact findProof_finalizeUpdate pid _ proofs p hp
  · intro p hp hbe
    simp [verify_integrity, hp, hbe]

/-- C6 witness: finalizing a stored (unfinalized) proof succeeds. -/
theorem verify_integrity_characterization_witness :
    (finalize_proof (fun _ => none)
      [{ proof_id := "p1", operation := "op", files_affected := ["f"],
         before_hash := "b", after_hash := "", timestamp := "t", verified := false }]
      "p1" ["f"]).1 = true :=
  ((verify_integrity_characterization
    [{ proof_id := "p1", operation := "op", files_affected := ["f"],
       before_hash := "b", after_hash := "", timestamp := "t", verified := false }]
    "p1").2.1 (fun _ => none) ["f"]
    { proof_id := "p1", operation := "op", files_affected := ["f"],
      before_hash := "b", after_hash := "", timestamp := "t", verified := false }
    (by decide)).1

/-- A break reported by `firstBreakFrom` lies at or after the starting
index. -/
theorem firstBreakFrom_ge :
    ∀ (l : List BlockchainTransaction) (prev : String) (i j : Nat),
      firstBreakFrom prev i l = some j → i ≤ j := by
  intro l
  induction l with
  | nil =>
    intro prev i j h
    simp [firstBreakFrom] at h
  | cons tx rest ih =>
    intro prev i j h
    rw [firstBreakFrom] at h
    split at h
    · injection h with h
      omega
    · have := ih tx.data_hash (i + 1) j h
      omega

/-- The chain-verification loop, entered at any nonzero index, returns
the success log or the first break found by `firstBreakFrom`. -/
theorem verifyChainLoop_eq (ghash : String) :
    ∀ (l : List BlockchainTransaction) (i : Nat) (prev : String), i ≠ 0 →
      verifyChainLoop ghash i prev l =
        (match firstBreakFrom prev i l with
         | none => (true, ["Consolidation chain verified successfully"])
         | some j => (false, ["Hash chain broken at transaction " ++ toString j])) := by
  intro l
  induction l with
  | nil =>
    intro i prev hi
    simp [verifyChainLoop, firstBreakFrom]
  | cons tx rest ih =>
    intro i prev hi
    have h0 : (i == 0) = false := by simpa using hi
    rw [verifyChainLoop, firstBreakFrom, h0]
    by_cases hb : (tx.previous_hash != prev) = true
    · simp [hb]
    · have hb' : (tx.previous_hash != prev) = false := by simpa using hb
      simp only [hb', Bool.false_eq_true, if_false]
      exact ih (i + 1) tx.data_hash (by omega)

/-- C7: `verify_consolidation_chain` walks the stored transactions in
order checking hash linkage and short-circuits at the first broken
link: it returns `True` (with the success log) exactly when every link,
including the genesis link at index 0, is correct, and otherwise
returns `False` with the single log line reporting the index of the
first break (index 0 being reported as the invalid genesis
transaction). -/
theorem verify_chain_first_break (chain : List BlockchainTransaction) :
    ((verify_consolidation_chain chain).1 = true ↔ firstBreak chain = none) ∧
    (∀ i : Nat, firstBreak chain = some i →
      verify_consolidation_chain chain =
        (false, [if i = 0 then "Genesis transaction invalid"
                 else "Hash chain broken at transaction " ++ toString i])) ∧
    (firstBreak chain = none → chain ≠ [] →
      verify_consolidation_chain chain =
        (true, ["Consolidation chain verified successfully"])) := by
  cases chain with
  | nil =>
    refine ⟨by simp [verify_consolidation_chain, firstBreak, firstBreakFrom], ?_, ?_⟩
    · intro i hi
      simp [firstBreak, firstBreakFrom] at hi
    · intro _ hne
      exact absurd rfl hne
  | cons tx rest =>
    have hv : verify_consolidation_chain (tx :: rest) =
        verifyChainLoop genesis_hash 0 "" (tx :: rest) := by
      simp [verify_consolidation_chain]
    by_cases hb : (tx.previous_hash != genesis_hash) = true
    · have hfb : firstBreak (tx :: rest) = some 0 := by
        simp [firstBreak, firstBreakFrom, hb]
      have hvv : verify_consolidation_chain (tx :: rest) =
          (false, ["Genesis transaction invalid"]) := by
        rw [hv, verifyChainLoop]
        simp [hb]
      refine ⟨by simp [hvv, hfb], ?_, ?_⟩
      · intro i hi
        rw [hfb] at hi
        injection hi with hi
        subst hi
        simpa using hvv
      · intro hnone
        rw [hfb] at hnone
        exact absurd hnone (by simp)
    · have hb' : (tx.previous_hash != genesis_hash) = false := by simpa using hb
      have hfb : firstBreak (tx :: rest) = firstBreakFrom tx.data_hash 1 rest := by
        rw [firstBreak, firstBreakFrom]
        simp [hb']
      have hvv : verify_consolidation_chain (tx :: rest) =
          verifyChainLoop genesis_hash 1 tx.data_hash rest := by
        rw [hv, verifyChainLoop]
        simp [hb']
      rw [hvv, verifyChainLoop_eq genesis_hash rest 1 tx.data_hash (by omega), hfb]
      cases hfb2 : firstBreakFrom tx.data_hash 1 rest with
      | none => simp
      | some j =>
        have hj : 1 ≤ j := firstBreakFrom_ge rest tx.data_hash 1 j hfb2
        refine ⟨by simp, ?_, ?_⟩
        · intro i hi
          injection hi with hi
          subst hi
          have : ¬ (j = 0) := by omega
          simp [this]
        · intro hnone
          exact absurd hnone (by simp)

/-- C7 witness: corrupting `previous_hash` at index 2 makes the verifier
report a break at transaction 2. -/
theorem verify_chain_first_break_witness :
    verify_consolidation_chain
      [{ tx_id := "a", timestamp := "t", operation := "op", data_hash := "d0",
         previous_hash := genesis_hash, merkle_root := "m", status := "confirmed" },
       { tx_id := "b", timestamp := "t", operation := "op", data_hash := "d1",
         previous_hash := "d0", merkle_root := "m", status := "confirmed" },
       { tx_id := "c", timestamp := "t", operation := "op", data_hash := "d2",
         previous_hash := "XX", merkle_root := "m", status := "confirmed" }] =
      (false, ["Hash chain broken at transaction 2"]) :=
  (verify_chain_first_break
    [{ tx_id := "a", timestamp := "t", operation := "op", data_hash := "d0",
       previous_hash := genesis_hash, merkle_root := "m", status := "confirmed" },
     { tx_id := "b", timestamp := "t", operation := "op", data_hash := "d1",
       previous_hash := "d0", merkle_root := "m", status := "confirmed" },
     { tx_id := "c", timestamp := "t", operation := "op", data_hash := "d2",
       previous_hash := "XX", merkle_root := "m", status := "confirmed" }]).2.1
    2 (by decide)

/-- C2 counterexample: a first coordination of agents A and B is
suspended at `await asyncio.sleep(0.1)` with its locks held
(`overlapMidState`); a second, overlapping `coordinate_operation` for
the same agents then returns `False`, and agent A — a member of the
second call's requested set — still holds its lock when that second
call returns, because rejection releases nothing. -/
theorem coordinate_locks_counterexample :
    coordPhase1 initialCoordinator "op1" ["A", "B"] 0 0 "t0" = some overlapMidState ∧
    (coordinate_operation overlapMidState "op2" ["A", "B"] 1 1 2 "t1" "t2").1 = false ∧
    ((coordinate_operation overlapMidState "op2" ["A", "B"] 1 1 2
        "t1" "t2").2).coordination_locks "A" = true := by
  refine ⟨rfl, ?_, ?_⟩ <;> decide

/-- C2 (amended): a `coordinate_operation` call that returns `True` has
released every requested agent's lock when it returns; a call that
returns `False` (rejection) leaves the coordinator state exactly as it
found it — so a requested agent whose lock was already held by a
still-suspended coordination remains locked, as the counterexample
exhibits. -/
theorem coordinate_locks_amended (st : CoordinatorState) (operation : String)
    (agents : List String) (tSec t1 t2 : Nat) (ts1 ts2 : String) :
    ((coordinate_operation st operation agents tSec t1 t2 ts1 ts2).1 = true →
      ∀ a ∈ agents,
        ((coordinate_operation st operation agents tSec t1 t2 ts1
            ts2).2).coordination_locks a = false) ∧
    ((coordinate_operation st operation agents tSec t1 t2 ts1 ts2).1 = false →
      (coordinate_operation st operation agents tSec t1 t2 ts1 ts2).2 = st) := by
  by_cases hl : anyLocked st.coordination_locks agents = true
  · have hco : coordinate_operation st operation agents tSec t1 t2 ts1 ts2 =
        (false, st) := by
      simp [coordinate_operation, coordPhase1, hl]
    rw [hco]
    exact ⟨fun h => absurd h (by simp), fun _ => rfl⟩
  · have hl' : anyLocked st.coordination_locks agents = false := by simpa using hl
    constructor
    · intro _ a ha
      simp [coordinate_operation, coordPhase1, hl', coordPhase2, register_event,
        unlockAgents, ha]
    · intro hfalse
      simp [coordinate_operation, coordPhase1, hl'] at hfalse

/-- C2 witness: an uncontended coordination returns `True` with the
requested agent's lock free. -/
theorem coordinate_locks_amended_witness :
    ((coordinate_operation initialCoordinator "op" ["A"] 0 0 1
        "t1" "t2").2).coordination_locks "A" = false :=
  (coordinate_locks_amended initialCoordinator "op" ["A"] 0 0 1 "t1" "t2").1
    rfl "A" (by simp)

/-- Appending one event extends the dense-sequence check by one test at
the end. -/
theorem checkSeq_append (e : TemporalEvent) :
    ∀ (l : List TemporalEvent) (k : Nat),
      checkSeq k (l ++ [e]) = (checkSeq k l && (e.sequence == k + l.length + 1)) := by
  intro l
  induction l with
  | nil => intro k; simp [checkSeq]
  | cons a rest ih =>
    intro k
    simp only [List.cons_append, checkSeq, List.append_eq, List.length_cons]
    rw [ih (k + 1), Bool.and_assoc]
    have harith : k + 1 + rest.length + 1 = k + (rest.length + 1) + 1 := by omega
    rw [harith]

/-- `register_event` keeps the counter equal to the event count and the
event sequences dense from 1. -/
theorem applyRegisters_invariant :
    ∀ (regs : List (String × String × String × Nat × String))
      (st : CoordinatorState),
      st.sequence_counter = st.events.length → checkSeq 0 st.events = true →
      (applyRegisters st regs).sequence_counter =
        (applyRegisters st regs).events.length ∧
      checkSeq 0 (applyRegisters st regs).events = true := by
  intro regs
  induction regs with
  | nil =>
    intro st h1 h2
    exact ⟨h1, h2⟩
  | cons r rest ih =>
    obtain ⟨et, ag, d, t, ts⟩ := r
    intro st h1 h2
    rw [applyRegisters]
    apply ih
    · simp [register_event, h1]
    · simp [register_event, checkSeq_append, h2, h1]

/-- A dense-from-`k` event list has sequence `k + i + 1` at index `i`. -/
theorem checkSeq_index :
    ∀ (l : List TemporalEvent) (k : Nat), checkSeq k l = true →
      ∀ (i : Nat) (e : TemporalEvent), l[i]? = some e → e.sequence = k + i + 1 := by
  intro l
  induction l with
  | nil =>
    intro k _ i e h
    simp at h
  | cons a rest ih =>
    intro k hc i e h
    simp [checkSeq] at hc
    cases i with
    | zero =>
      simp at h
      subst h
      omega
    | succ m =>
      simp at h
      have := ih (k + 1) hc.2 m e h
      omega

/-- Every event of a dense-from-`k` list has sequence above `k`. -/
theorem checkSeq_lt :
    ∀ (l : List TemporalEvent) (k : Nat), checkSeq k l = true →
      ∀ e ∈ l, k < e.sequence := by
  intro l
  induction l with
  | nil =>
    intro k _ e he
    simp at he
  | cons a rest ih =>
    intro k hc e he
    simp [checkSeq] at hc
    rcases List.mem_cons.mp he with he | he
    · subst he
      omega
    · have := ih (k + 1) hc.2 e he
      omega

/-- A dense event list is sorted by sequence number. -/
theorem checkSeq_pairwise :
    ∀ (l : List TemporalEvent) (k : Nat), checkSeq k l = true →
      l.Pairwise (fun a b => a.sequence ≤ b.sequence) := by
  intro l
  induction l with
  | nil =>
    intro k _
    exact List.Pairwise.nil
  | cons a rest ih =>
    intro k hc
    simp [checkSeq] at hc
    refine List.Pairwise.cons ?_ (ih (k + 1) hc.2)
    intro b hb
    have := checkSeq_lt rest (k + 1) hc.2 b hb
    omega

/-- On an already-sorted event log, the timeline sort is the identity. -/
theorem get_event_timeline_sorted (st : CoordinatorState)
    (h : checkSeq 0 st.events = true) : get_event_timeline st = st.events := by
  apply List.mergeSort_of_sorted
  exact (checkSeq_pairwise st.events 0 h).imp (fun hab => decide_eq_true hab)

/-- C4: after any sequence of `register_event` calls on a fresh
coordinator, the stored events carry sequence numbers exactly
`1, 2, ..., N` in append order — the `i`-th event (0-based) has
sequence `i + 1`, whatever agent each event names — and the
temporal-consistency verifier accepts the log. -/
theorem temporal_sequence_dense
    (regs : List (String × String × String × Nat × String)) :
    (∀ (i : Nat) (e : TemporalEvent),
      (applyRegisters initialCoordinator regs).events[i]? = some e →
        e.sequence = i + 1) ∧
    verify_temporal_consistency (applyRegisters initialCoordinator regs) = true := by
  have hinv := applyRegisters_invariant regs initialCoordinator rfl rfl
  constructor
  · intro i e he
    have := checkSeq_index _ 0 hinv.2 i e he
    omega
  · unfold verify_temporal_consistency
    rw [get_event_timeline_sorted _ hinv.2]
    exact hinv.2

/-- C4 witness: the first registered event receives sequence number 1. -/
theorem temporal_sequence_dense_witness :
    ({ event_id := "event_7_0", timestamp := "ts", event_type := "boot",
       agent := "ananke", data := "d", sequence := 1 } : TemporalEvent).sequence =
      0 + 1 :=
  (temporal_sequence_dense [("boot", "ananke", "d", 7, "ts")]).1 0
    { event_id := "event_7_0", timestamp := "ts", event_type := "boot",
      agent := "ananke", data := "d", sequence := 1 } (by decide)

end Chronos
